import Mathlib

/-!
Shallow embedding of the `numa_maps` parsing library (`src/lib.rs`).

Strings are modelled as `List Char`; the Rust `usize` is modelled as `Nat`
with arithmetic reduced modulo `2 ^ 64` where the source performs wrapping
machine arithmetic (`pages * page_size`, `sz << 10`).  Fallible operations
return `Except (List Char)` mirroring `Result<_, String>`, and the I/O line
source of `NumaMap::from_file` is modelled as the list of line-read results.
-/

/-- Modulus of the 64-bit `usize` type used throughout the Rust source. -/
def USIZE : Nat := 2 ^ 64

/-- Message of Rust `ParseIntError` of kind `Empty`. -/
def msgEmpty : List Char := "cannot parse integer from empty string".toList

/-- Message of Rust `ParseIntError` of kind `InvalidDigit`. -/
def msgInvalidDigit : List Char := "invalid digit found in string".toList

/-- Message of Rust `ParseIntError` of kind `PosOverflow`. -/
def msgPosOverflow : List Char := "number too large to fit in target type".toList

/-- Rust `char::to_digit(radix)`: `0-9`, `a-z`, `A-Z`, value below the radix. -/
def charToDigit (radix : Nat) (c : Char) : Option Nat :=
  let n := c.toNat
  let d :=
    if 48 ≤ n && n ≤ 57 then some (n - 48)
    else if 97 ≤ n && n ≤ 122 then some (n - 97 + 10)
    else if 65 ≤ n && n ≤ 90 then some (n - 65 + 10)
    else none
  match d with
  | some d => if d < radix then some d else none
  | none => none

/-- Digit-accumulation loop of Rust `from_str_radix` for an unsigned type:
checked multiply and add, overflow of `usize` reported as `PosOverflow`. -/
def parseDigitsLoop (radix : Nat) : List Char → Nat → Except (List Char) Nat
  | [], acc => .ok acc
  | c :: cs, acc =>
    match charToDigit radix c with
    | none => .error msgInvalidDigit
    | some d =>
      if USIZE ≤ acc * radix + d then .error msgPosOverflow
      else parseDigitsLoop radix cs (acc * radix + d)

/-- Rust `usize::from_str_radix` (also `str::parse::<usize>` at radix 10):
empty input is an error, a leading `+` is allowed, `-` is not a digit. -/
def parseUsize (radix : Nat) (s : List Char) : Except (List Char) Nat :=
  match s with
  | [] => .error msgEmpty
  | ['+'] => .error msgInvalidDigit
  | '+' :: rest => parseDigitsLoop radix rest 0
  | _ => parseDigitsLoop radix s 0

/-- Rust `char::is_whitespace`: the Unicode `White_Space` property. -/
def isRustWhitespace (c : Char) : Bool :=
  let n := c.toNat
  (0x9 ≤ n && n ≤ 0xD) || n == 0x20 || n == 0x85 || n == 0xA0 || n == 0x1680 ||
  (0x2000 ≤ n && n ≤ 0x200A) || n == 0x2028 || n == 0x2029 || n == 0x202F ||
  n == 0x205F || n == 0x3000

/-- Accumulating worker for `splitWhitespace`. -/
def splitWsAux : List Char → List Char → List (List Char)
  | [], acc =>
    match acc with
    | [] => []
    | _ => [acc.reverse]
  | c :: cs, acc =>
    if isRustWhitespace c then
      match acc with
      | [] => splitWsAux cs []
      | _ => acc.reverse :: splitWsAux cs []
    else splitWsAux cs (c :: acc)

/-- Rust `str::split_whitespace`: maximal non-whitespace runs, no empties. -/
def splitWhitespace (s : List Char) : List (List Char) :=
  splitWsAux s []

/-- Rust `s.find('=')` followed by `split_at`: the part before the first `=`
and, when one exists, the part after it. -/
def splitAtEq : List Char → List Char × Option (List Char)
  | [] => ([], none)
  | c :: cs =>
    if c = '=' then ([], some cs)
    else ((splitAtEq cs).1.cons c, (splitAtEq cs).2)

/-- Decides whether `pat` occurs at the head of `s`. -/
def begWith : List Char → List Char → Bool
  | [], _ => true
  | _ :: _, [] => false
  | a :: ps, b :: ss => a == b && begWith ps ss

/-- Decides whether `pat` occurs as a contiguous segment of `s`. -/
def hasSeg (pat : List Char) : List Char → Bool
  | [] =>
    match pat with
    | [] => true
    | _ => false
  | c :: rest => begWith pat (c :: rest) || hasSeg pat rest

/-- The `Property` enum of `src/lib.rs` (lines 11-38), in declaration order.
The `PathBuf` payload of `File` is modelled as its character list. -/
inductive Property where
  | File : List Char → Property
  | N : Nat → Nat → Property
  | Heap : Property
  | Stack : Property
  | Huge : Property
  | Anon : Nat → Property
  | Dirty : Nat → Property
  | Mapped : Nat → Property
  | MapMax : Nat → Property
  | SwapCache : Nat → Property
  | Active : Nat → Property
  | Writeback : Nat → Property
  | Kernelpagesize : Nat → Property
deriving DecidableEq

/-- Discriminant of a `Property`, following the Rust declaration order, which
`derive(Ord)` compares first. -/
def Property.tag : Property → Nat
  | .File _ => 0
  | .N _ _ => 1
  | .Heap => 2
  | .Stack => 3
  | .Huge => 4
  | .Anon _ => 5
  | .Dirty _ => 6
  | .Mapped _ => 7
  | .MapMax _ => 8
  | .SwapCache _ => 9
  | .Active _ => 10
  | .Writeback _ => 11
  | .Kernelpagesize _ => 12

/-- Lexicographic comparison of character lists by scalar value, modelling the
Rust ordering of the `File` payload.  (Rust's `PathBuf` order compares path
components; no claim settled here ever compares two `File` payloads, and on
component-free payloads the two orders agree.) -/
def cmpListChar : List Char → List Char → Ordering
  | [], [] => .eq
  | [], _ :: _ => .lt
  | _ :: _, [] => .gt
  | a :: xs, b :: ys =>
    match compare a.toNat b.toNat with
    | .eq => cmpListChar xs ys
    | o => o

/-- The `derive(Ord)` comparison on `Property` (line 10): discriminant first,
then the payload fields lexicographically. -/
def Property.cmp : Property → Property → Ordering
  | .File a, .File b => cmpListChar a b
  | .N n1 s1, .N n2 s2 => (compare n1 n2).then (compare s1 s2)
  | .Anon a, .Anon b => compare a b
  | .Dirty a, .Dirty b => compare a b
  | .Mapped a, .Mapped b => compare a b
  | .MapMax a, .MapMax b => compare a b
  | .SwapCache a, .SwapCache b => compare a b
  | .Active a, .Active b => compare a b
  | .Writeback a, .Writeback b => compare a b
  | .Kernelpagesize a, .Kernelpagesize b => compare a b
  | a, b => compare a.tag b.tag

/-- The non-strict order induced by `Property.cmp`, the relation by which
Rust's stable `Vec::sort` arranges the list. -/
def propLE (a b : Property) : Prop := Property.cmp a b ≠ Ordering.gt

instance : DecidableRel propLE := fun a b =>
  inferInstanceAs (Decidable (Property.cmp a b ≠ Ordering.gt))

/-- The stable sort of `Vec::sort` (line 157), modelled by the stable
insertion sort on the `Property.cmp` order. -/
def sortProps (l : List Property) : List Property :=
  l.insertionSort propLE

/-- Bool check that a property list is arranged by the `Property.cmp` order. -/
def isSortedProps : List Property → Bool
  | [] => true
  | [_] => true
  | p :: q :: r => (Property.cmp p q != Ordering.gt) && isSortedProps (q :: r)

/-- `Property::page_size` (lines 43-48). -/
def Property.page_size : Property → Option Nat
  | .Kernelpagesize ps => some ps
  | _ => none

/-- `Property::normalize` (lines 53-70).  The `pages * page_size` products
are wrapping `usize` multiplications, hence the `% USIZE`. -/
def Property.normalize : Property → Nat → Option Property
  | .File p, _ => some (.File p)
  | .N node pages, page_size => some (.N node (pages * page_size % USIZE))
  | .Heap, _ => some .Heap
  | .Stack, _ => some .Stack
  | .Huge, _ => some .Huge
  | .Anon pages, page_size => some (.Anon (pages * page_size % USIZE))
  | .Dirty pages, page_size => some (.Dirty (pages * page_size % USIZE))
  | .Mapped pages, page_size => some (.Mapped (pages * page_size % USIZE))
  | .MapMax pages, _ => some (.MapMax pages)
  | .SwapCache pages, page_size => some (.SwapCache (pages * page_size % USIZE))
  | .Active pages, page_size => some (.Active (pages * page_size % USIZE))
  | .Writeback pages, page_size => some (.Writeback (pages * page_size % USIZE))
  | .Kernelpagesize _, _ => none

/-- Head test for the `key.starts_with('N')` guard of the first match arm. -/
def headIsN : List Char → Bool
  | c :: _ => c == 'N'
  | [] => false

/-- `<Property as FromStr>::from_str` (lines 76-111): split the token at the
first `=`, then dispatch on the key exactly as the Rust match does.  The
`sz << 10` of the `kernelpagesize_kB` arm is a wrapping `usize` shift. -/
def Property.from_str (s : List Char) : Except (List Char) Property :=
  match splitAtEq s with
  | (key, some v) =>
    if headIsN key then
      match parseUsize 10 (key.drop 1) with
      | .error e => .error e
      | .ok node =>
        match parseUsize 10 v with
        | .error e => .error e
        | .ok count => .ok (.N node count)
    else if key == "file".toList then .ok (.File v)
    else if key == "heap".toList then .ok .Heap
    else if key == "stack".toList then .ok .Stack
    else if key == "huge".toList then .ok .Huge
    else if key == "anon".toList then (parseUsize 10 v).map .Anon
    else if key == "dirty".toList then (parseUsize 10 v).map .Dirty
    else if key == "mapped".toList then (parseUsize 10 v).map .Mapped
    else if key == "mapmax".toList then (parseUsize 10 v).map .MapMax
    else if key == "swapcache".toList then (parseUsize 10 v).map .SwapCache
    else if key == "active".toList then (parseUsize 10 v).map .Active
    else if key == "writeback".toList then (parseUsize 10 v).map .Writeback
    else if key == "kernelpagesize_kB".toList then
      (parseUsize 10 v).map (fun sz => .Kernelpagesize (sz * 1024 % USIZE))
    else .error ("unknown key/value: ".toList ++ key ++ '=' :: v)
  | (key, none) =>
    if key == "heap".toList then .ok .Heap
    else if key == "stack".toList then .ok .Stack
    else if key == "huge".toList then .ok .Huge
    else .error ("unknown key: ".toList ++ key)

/-- The disjunction of all keys the val-bearing arms of the Rust match name
explicitly (everything except the `starts_with('N')` guard). -/
def knownKey (k : List Char) : Bool :=
  k == "file".toList || k == "heap".toList || k == "stack".toList ||
  k == "huge".toList || k == "anon".toList || k == "dirty".toList ||
  k == "mapped".toList || k == "mapmax".toList || k == "swapcache".toList ||
  k == "active".toList || k == "writeback".toList ||
  k == "kernelpagesize_kB".toList

/-- The `Range` struct (lines 116-123).  The policy is a character list. -/
structure Range where
  address : Nat
  policy : List Char
  properties : List Property
deriving DecidableEq

/-- `Range::parse` (lines 130-146): first token must parse as hex, second
token is the policy, the rest go through the property parser and failures
are dropped (they are only printed to stderr in the source). -/
def Range.parse (line : List Char) : Option Range :=
  match splitWhitespace line with
  | [] => none
  | addrTok :: rest =>
    match (parseUsize 16 addrTok).toOption with
    | none => none
    | some address =>
      match rest with
      | [] => none
      | policyTok :: parts =>
        some { address := address, policy := policyTok,
               properties :=
                 parts.filterMap (fun part => (Property.from_str part).toOption) }

/-- `Range::normalize` (lines 149-160): find the first page-size value via
`find_map`, and when present rebuild the property list by `filter_map` of
`Property::normalize` followed by the stable sort. -/
def Range.normalize (r : Range) : Range :=
  match r.properties.findSome? Property.page_size with
  | none => r
  | some page_size =>
    { r with properties :=
        sortProps (r.properties.filterMap (fun p => Property.normalize p page_size)) }

/-- The `NumaMap` struct (lines 165-168). -/
structure NumaMap where
  ranges : List Range
deriving DecidableEq

/-- The line loop of `NumaMap::from_file` (lines 184-189): `line?` aborts on
a read failure, otherwise parsed ranges are pushed in order. -/
def fromFileLoop : List (Except Unit (List Char)) → List Range →
    Except Unit (List Range)
  | [], acc => .ok acc
  | .error e :: _, _ => .error e
  | .ok line :: rest, acc =>
    match Range.parse line with
    | some range => fromFileLoop rest (acc ++ [range])
    | none => fromFileLoop rest acc

/-- `NumaMap::from_file` (lines 180-191), with the `BufReader` line iterator
modelled as the list of line-read results. -/
def NumaMap.from_file (source : List (Except Unit (List Char))) :
    Except Unit NumaMap :=
  (fromFileLoop source []).map NumaMap.mk

/-- Loading a source whose reads all succeed. -/
def NumaMap.from_lines (lines : List (List Char)) : NumaMap :=
  ⟨lines.filterMap Range.parse⟩

/-- Claim-side predicate: the line's first token parses as base-16. -/
def lineHasValidAddress (line : List Char) : Bool :=
  match splitWhitespace line with
  | tok :: _ => ((parseUsize 16 tok).toOption).isSome
  | [] => false

/-- Claim-side predicate: first token parses as base-16 and a second token
exists, the exact condition under which `Range::parse` yields a `Range`. -/
def lineWellFormed (line : List Char) : Bool :=
  match splitWhitespace line with
  | tok :: _ :: _ => ((parseUsize 16 tok).toOption).isSome
  | _ => false

/-- The literal scenario line of the spec and of `test_normalize`. -/
def testLine : List Char :=
  "7fbd0c10f000 default anon=5 dirty=5 active=1 N0=5 kernelpagesize_kB=4".toList

/-- The variants whose payload `Property::normalize` passes through unchanged:
`File`, `Heap`, `Stack`, `Huge`, `MapMax`. -/
def isPassThrough : Property → Bool
  | .File _ => true
  | .Heap => true
  | .Stack => true
  | .Huge => true
  | .MapMax _ => true
  | _ => false

/-- The eight numeric-valued keys of the recognized table whose value is fed
to the base-10 integer parser by `from_str`. -/
def counterKeys : List (List Char) :=
  ["anon".toList, "dirty".toList, "mapped".toList, "mapmax".toList,
   "swapcache".toList, "active".toList, "writeback".toList,
   "kernelpagesize_kB".toList]

/-- When every element maps to `none`, `findSome?` finds nothing. -/
theorem findSome?_eq_none_of_all {α β : Type} {f : α → Option β} :
    ∀ {l : List α}, (∀ a ∈ l, f a = none) → l.findSome? f = none := by
  intro l
  induction l with
  | nil => intro _; rfl
  | cons a t ih =>
    intro h
    simp only [List.findSome?_cons, h a (List.mem_cons_self a t)]
    exact ih fun x hx => h x (List.mem_cons_of_mem a hx)

/-- When `findSome?` finds nothing, every element maps to `none`. -/
theorem all_none_of_findSome?_eq_none {α β : Type} {f : α → Option β} :
    ∀ {l : List α}, l.findSome? f = none → ∀ a ∈ l, f a = none := by
  intro l
  induction l with
  | nil => intro _ a ha; cases ha
  | cons a t ih =>
    intro h x hx
    cases hfa : f a with
    | some b => simp [List.findSome?_cons, hfa] at h
    | none =>
      simp only [List.findSome?_cons, hfa] at h
      rcases List.mem_cons.mp hx with e | m
      · rw [e]; exact hfa
      · exact ih h x m

/-- The stable sort returns a permutation of its input. -/
theorem sortProps_perm (l : List Property) : List.Perm (sortProps l) l :=
  List.perm_insertionSort propLE l

/-- Membership is invariant under the stable sort. -/
theorem mem_sortProps {p : Property} {l : List Property} :
    p ∈ sortProps l ↔ p ∈ l :=
  (sortProps_perm l).mem_iff

/-- Whatever `Property::normalize` returns is never the page-size property. -/
theorem page_size_eq_none_of_normalize {q p : Property} {ps : Nat}
    (h : Property.normalize q ps = some p) : Property.page_size p = none := by
  cases q <;> simp [Property.normalize] at h <;> simp [← h, Property.page_size]

/-- Unfolding of `Range.normalize` when no page-size property exists. -/
theorem normalize_of_none {r : Range}
    (h : r.properties.findSome? Property.page_size = none) :
    Range.normalize r = r := by
  unfold Range.normalize
  rw [h]

/-- Unfolding of `Range.normalize` when a first page-size value is found. -/
theorem normalize_of_some {r : Range} {ps : Nat}
    (h : r.properties.findSome? Property.page_size = some ps) :
    Range.normalize r =
      { r with properties :=
          sortProps (r.properties.filterMap (fun p => Property.normalize p ps)) } := by
  unfold Range.normalize
  rw [h]

/-- A line yields a `Range` exactly when it is well formed. -/
theorem parse_isSome_eq (line : List Char) :
    (Range.parse line).isSome = lineWellFormed line := by
  unfold Range.parse lineWellFormed
  cases splitWhitespace line with
  | nil => rfl
  | cons a rest =>
    cases rest with
    | nil => cases h : (parseUsize 16 a).toOption <;> simp [h]
    | cons b t => cases h : (parseUsize 16 a).toOption <;> simp [h]

/-- Splitting a token at its first `=` when the key holds no `=`. -/
theorem splitAtEq_append {key : List Char} (val : List Char) (h : '=' ∉ key) :
    splitAtEq (key ++ '=' :: val) = (key, some val) := by
  induction key with
  | nil => simp [splitAtEq]
  | cons c k ih =>
    rw [List.mem_cons] at h
    push_neg at h
    simp [splitAtEq, Ne.symm h.1, ih h.2]

/-- The loop of `from_file` over successfully read lines collects exactly the
parsed ranges, behind the accumulator. -/
theorem fromFileLoop_map_ok (lines : List (List Char)) (acc : List Range) :
    fromFileLoop (lines.map Except.ok) acc =
      Except.ok (acc ++ lines.filterMap Range.parse) := by
  induction lines generalizing acc with
  | nil => simp [fromFileLoop]
  | cons l t ih =>
    cases hp : Range.parse l with
    | none => simp [fromFileLoop, hp, List.filterMap_cons, ih]
    | some rg => simp [fromFileLoop, hp, List.filterMap_cons, ih]

/-- Length of a `filterMap` counts the elements mapped to `some`. -/
theorem length_filterMap_eq_countP {α β : Type} (f : α → Option β) (l : List α) :
    (l.filterMap f).length = l.countP (fun a => (f a).isSome) := by
  induction l with
  | nil => rfl
  | cons a t ih =>
    cases hf : f a with
    | none => simp [List.filterMap_cons, hf, List.countP_cons, ih]
    | some b => simp [List.filterMap_cons, hf, List.countP_cons, ih]

/-- On a list whose prefix yields nothing, `findSome?` returns the value of
the first hit, first-match semantics. -/
theorem findSome?_append_first {α β : Type} {f : α → Option β} {a : α} {b : β}
    (ha : f a = some b) :
    ∀ {l1 : List α} (l2 : List α), (∀ x ∈ l1, f x = none) →
      (l1 ++ a :: l2).findSome? f = some b := by
  intro l1
  induction l1 with
  | nil =>
    intro l2 _
    simp [List.findSome?_cons, ha]
  | cons c t ih =>
    intro l2 h
    simp only [List.cons_append, List.findSome?_cons,
      h c (List.mem_cons_self c t)]
    exact ih l2 fun x hx => h x (List.mem_cons_of_mem c hx)

/-- The digit loop only fails with the invalid-digit or overflow message. -/
theorem parseDigitsLoop_error (radix : Nat) :
    ∀ (s : List Char) (acc : Nat) (e : List Char),
      parseDigitsLoop radix s acc = Except.error e →
      e = msgInvalidDigit ∨ e = msgPosOverflow := by
  intro s
  induction s with
  | nil =>
    intro acc e h
    simp [parseDigitsLoop] at h
  | cons c cs ih =>
    intro acc e h
    simp only [parseDigitsLoop] at h
    split at h
    · injection h with h2
      exact Or.inl h2.symm
    · split at h
      · injection h with h2
        exact Or.inr h2.symm
      · exact ih _ e h

/-- `parseUsize` only fails with one of the three `ParseIntError` texts. -/
theorem parseUsize_error (radix : Nat) (s : List Char) (e : List Char)
    (h : parseUsize radix s = Except.error e) :
    e = msgEmpty ∨ e = msgInvalidDigit ∨ e = msgPosOverflow := by
  unfold parseUsize at h
  split at h
  · injection h with h2
    exact Or.inl h2.symm
  · injection h with h2
    exact Or.inr (Or.inl h2.symm)
  · exact Or.inr (parseDigitsLoop_error radix _ 0 e h)
  · exact Or.inr (parseDigitsLoop_error radix _ 0 e h)

/-- C1 (counterexample): a `Range` whose property list holds two
`Kernelpagesize` entries ends up with an empty property list after
`Range::normalize` — the later entry does not pass through. -/
theorem claim1_counterexample :
    Range.normalize
        ⟨0, [], [Property.Kernelpagesize 4096, Property.Kernelpagesize 8192]⟩ =
      ⟨0, [], []⟩ := by decide

/-- C1 (amended): for every `Range` with two or more `Kernelpagesize`
entries — written as a first page-size entry of value `ps` preceded only by
non-page-size properties, with a further page-size entry somewhere behind
it — `Range::normalize` rebuilds the property list by normalizing every
property with `ps`, the FIRST entry's value, and no `Kernelpagesize` entry
(first or later) appears in the resulting property list. -/
theorem claim1_all_kernelpagesize_removed (r : Range) (ps : Nat)
    (l1 l2 : List Property)
    (hr : r.properties = l1 ++ Property.Kernelpagesize ps :: l2)
    (h1 : ∀ p ∈ l1, Property.page_size p = none)
    (_h2 : ∃ q ∈ l2, (Property.page_size q).isSome) :
    (Range.normalize r).properties =
        sortProps (r.properties.filterMap (fun p => Property.normalize p ps)) ∧
      ∀ v, Property.Kernelpagesize v ∉ (Range.normalize r).properties := by
  have hf : r.properties.findSome? Property.page_size = some ps := by
    rw [hr]
    exact findSome?_append_first
      (show Property.page_size (Property.Kernelpagesize ps) = some ps from rfl)
      l2 h1
  constructor
  · rw [normalize_of_some hf]
  · intro v hmem
    have hmem' : Property.Kernelpagesize v ∈
        sortProps (r.properties.filterMap (fun p => Property.normalize p ps)) := by
      rw [normalize_of_some hf] at hmem
      exact hmem
    obtain ⟨q, hq, hn⟩ := List.mem_filterMap.mp (mem_sortProps.mp hmem')
    have hnone := page_size_eq_none_of_normalize hn
    simp [Property.page_size] at hnone

/-- C1 (witness): the amended statement at a concrete range carrying two
`Kernelpagesize` entries behind an `Anon` counter. -/
theorem claim1_witness :
    ((⟨0, [], [Property.Anon 1, Property.Kernelpagesize 4096,
          Property.Kernelpagesize 8192]⟩ : Range).properties =
        [Property.Anon 1] ++ Property.Kernelpagesize 4096 ::
          [Property.Kernelpagesize 8192]) ∧
      (∀ p ∈ [Property.Anon 1], Property.page_size p = none) ∧
      (∃ q ∈ [Property.Kernelpagesize 8192],
        (Property.page_size q).isSome) ∧
      (Range.normalize ⟨0, [], [Property.Anon 1, Property.Kernelpagesize 4096,
            Property.Kernelpagesize 8192]⟩).properties =
        sortProps ((⟨0, [], [Property.Anon 1, Property.Kernelpagesize 4096,
            Property.Kernelpagesize 8192]⟩ : Range).properties.filterMap
          (fun p => Property.normalize p 4096)) ∧
      Property.Kernelpagesize 8192 ∉
        (Range.normalize ⟨0, [], [Property.Anon 1, Property.Kernelpagesize 4096,
          Property.Kernelpagesize 8192]⟩).properties := by
  have h := claim1_all_kernelpagesize_removed
    ⟨0, [], [Property.Anon 1, Property.Kernelpagesize 4096,
      Property.Kernelpagesize 8192]⟩ 4096 [Property.Anon 1]
    [Property.Kernelpagesize 8192] rfl (by decide) (by decide)
  exact ⟨rfl, by decide, by decide, h.1, h.2 8192⟩

/-- C2: parsing the literal line
`7fbd0c10f000 default anon=5 dirty=5 active=1 N0=5 kernelpagesize_kB=4` and
normalizing yields exactly `N(0,20480), Anon(20480), Dirty(20480),
Active(4096)` — no `Kernelpagesize` — arranged by the `Property` order. -/
theorem claim2_literal_scenario :
    (Range.parse testLine).map (fun r => (Range.normalize r).properties) =
      some [Property.N 0 20480, Property.Anon 20480, Property.Dirty 20480,
        Property.Active 4096] ∧
    isSortedProps [Property.N 0 20480, Property.Anon 20480,
        Property.Dirty 20480, Property.Active 4096] = true :=
  ⟨by decide, by decide⟩

/-- C3 (counterexample): a one-line source whose single line has a valid hex
first token but no policy token loads to a `Map` with zero ranges, not one. -/
theorem claim3_counterexample :
    lineHasValidAddress ("deadbeef".toList) = true ∧
      NumaMap.from_file [Except.ok ("deadbeef".toList)] = Except.ok ⟨[]⟩ :=
  ⟨by decide, rfl⟩

/-- C3 (amended): loading an ordered source of successfully read lines yields
one range per line whose first token parses as base-16 AND which has a second
token, in the original line order (the ranges list is the in-order
`filterMap` of `Range::parse`). -/
theorem claim3_ranges_per_wellformed_line (lines : List (List Char)) :
    NumaMap.from_file (lines.map Except.ok) =
        Except.ok (NumaMap.from_lines lines) ∧
      (NumaMap.from_lines lines).ranges = lines.filterMap Range.parse ∧
      (NumaMap.from_lines lines).ranges.length =
        (lines.filter lineWellFormed).length := by
  refine ⟨?_, rfl, ?_⟩
  · unfold NumaMap.from_file NumaMap.from_lines
    rw [fromFileLoop_map_ok]
    rfl
  · show (lines.filterMap Range.parse).length = _
    rw [length_filterMap_eq_countP]
    rw [show (fun l => (Range.parse l).isSome) = lineWellFormed from
      funext parse_isSome_eq]
    exact List.countP_eq_length_filter _ _

/-- C4: normalizing a `Range` with no `Kernelpagesize` property leaves the
whole `Range` unchanged, and no failure exists (the function is total). -/
theorem claim4_no_pagesize_noop (r : Range)
    (h : ∀ p ∈ r.properties, Property.page_size p = none) :
    Range.normalize r = r :=
  normalize_of_none (findSome?_eq_none_of_all h)

/-- C4 (witness): the no-op at a concrete pagesize-free range. -/
theorem claim4_witness :
    (∀ p ∈ ([Property.Anon 5, Property.Heap] : List Property),
        Property.page_size p = none) ∧
      Range.normalize ⟨7, "default".toList, [Property.Anon 5, Property.Heap]⟩ =
        ⟨7, "default".toList, [Property.Anon 5, Property.Heap]⟩ :=
  ⟨by decide,
   claim4_no_pagesize_noop
     ⟨7, "default".toList, [Property.Anon 5, Property.Heap]⟩ (by decide)⟩

/-- C5: `MapMax` counts are never multiplied by the page size during
normalization, for any page size and count, whereas the `N`, `Anon`, `Dirty`,
`Mapped`, `SwapCache`, `Active` and `Writeback` counts are multiplied by it
(in wrapping `usize` arithmetic). -/
theorem claim5_mapmax_never_scaled (ps c node : Nat) :
    Property.normalize (Property.MapMax c) ps = some (Property.MapMax c) ∧
    Property.normalize (Property.N node c) ps =
      some (Property.N node (c * ps % USIZE)) ∧
    Property.normalize (Property.Anon c) ps =
      some (Property.Anon (c * ps % USIZE)) ∧
    Property.normalize (Property.Dirty c) ps =
      some (Property.Dirty (c * ps % USIZE)) ∧
    Property.normalize (Property.Mapped c) ps =
      some (Property.Mapped (c * ps % USIZE)) ∧
    Property.normalize (Property.SwapCache c) ps =
      some (Property.SwapCache (c * ps % USIZE)) ∧
    Property.normalize (Property.Active c) ps =
      some (Property.Active (c * ps % USIZE)) ∧
    Property.normalize (Property.Writeback c) ps =
      some (Property.Writeback (c * ps % USIZE)) :=
  ⟨rfl, rfl, rfl, rfl, rfl, rfl, rfl, rfl⟩

/-- C6 (counterexample): for the failing token `anon=q` the returned failure
message is the bare integer-parse error, which contains neither the field
name `anon` nor the raw text `q`. -/
theorem claim6_counterexample :
    Property.from_str ("anon=q".toList) =
        Except.error ("invalid digit found in string".toList) ∧
      hasSeg ("anon".toList) ("invalid digit found in string".toList) = false ∧
      hasSeg ("q".toList) ("invalid digit found in string".toList) = false :=
  ⟨rfl, by decide, by decide⟩

/-- C6 (amended): the property parser is total — every token yields either a
`Property` or a failure, never a panic; for tokens with an unrecognized key
the failure message names the offending key and raw value; and for every
recognized numeric key, a value that fails integer parsing produces exactly
the integer-parse error, one of three fixed messages that do not depend on
the field name or raw text. -/
theorem claim6_error_message_shape :
    (∀ s : List Char, (∃ p, Property.from_str s = Except.ok p) ∨
        ∃ e, Property.from_str s = Except.error e) ∧
    (∀ key val : List Char, headIsN key = false → knownKey key = false →
        '=' ∉ key →
        Property.from_str (key ++ '=' :: val) =
          Except.error ("unknown key/value: ".toList ++ key ++ '=' :: val)) ∧
    (∀ key val e : List Char, key ∈ counterKeys →
        parseUsize 10 val = Except.error e →
        Property.from_str (key ++ '=' :: val) = Except.error e ∧
          (e = msgEmpty ∨ e = msgInvalidDigit ∨ e = msgPosOverflow)) := by
  refine ⟨?_, ?_, ?_⟩
  · intro s
    cases h : Property.from_str s with
    | ok p => exact Or.inl ⟨p, rfl⟩
    | error err => exact Or.inr ⟨err, rfl⟩
  · intro key val h1 h2 h3
    simp [knownKey, Bool.or_eq_false_iff] at h2
    unfold Property.from_str
    rw [splitAtEq_append val h3]
    simp [h1, h2]
  · intro key val e hk hv
    simp only [counterKeys, List.mem_cons, List.not_mem_nil, or_false] at hk
    rcases hk with rfl | rfl | rfl | rfl | rfl | rfl | rfl | rfl
    all_goals
      refine ⟨?_, parseUsize_error 10 val e hv⟩
      unfold Property.from_str
      rw [splitAtEq_append val (by decide)]
      simp [headIsN, hv, Except.map]

/-- C6 (witness): the amended statement applied at the concrete tokens
`foo=bar` (unrecognized key) and `anon=w` (failing numeric value). -/
theorem claim6_witness :
    Property.from_str ("foo=bar".toList) =
        Except.error ("unknown key/value: foo=bar".toList) ∧
      Property.from_str ("anon=w".toList) = Except.error msgInvalidDigit := by
  constructor
  · have h := claim6_error_message_shape.2.1 ("foo".toList) ("bar".toList)
      (by decide) (by decide) (by decide)
    simpa using h
  · have h := (claim6_error_message_shape.2.2 ("anon".toList) ("w".toList)
      msgInvalidDigit (by decide) rfl).1
    simpa using h

/-- C7: a line yields a `Range` under `Range::parse` if and only if its first
whitespace-delimited token parses as a base-16 unsigned integer and a second
token exists. -/
theorem claim7_parse_iff_wellformed (line : List Char) :
    (∃ r, Range.parse line = some r) ↔ lineWellFormed line = true := by
  rw [← parse_isSome_eq line]
  exact Option.isSome_iff_exists.symm

/-- C8: calling `Range::normalize` twice in a row gives the same result as
calling it once — the first call consumed every page-size entry, so the
second finds none and is a no-op. -/
theorem claim8_normalize_idempotent (r : Range) :
    Range.normalize (Range.normalize r) = Range.normalize r := by
  cases hf : r.properties.findSome? Property.page_size with
  | none =>
    rw [normalize_of_none hf]
    exact normalize_of_none hf
  | some ps =>
    apply normalize_of_none
    rw [normalize_of_some hf]
    apply findSome?_eq_none_of_all
    intro p hp
    have hp' : p ∈
        sortProps (r.properties.filterMap (fun q => Property.normalize q ps)) := hp
    obtain ⟨q, hq, hn⟩ := List.mem_filterMap.mp (mem_sortProps.mp hp')
    exact page_size_eq_none_of_normalize hn

/-- C9: `Property::normalize` returns `None` exactly on the `Kernelpagesize`
variant; on every other variant it returns `Some` of the same variant, and
`File`, `Heap`, `Stack`, `Huge` and `MapMax` keep their payload unchanged. -/
theorem claim9_normalize_variant_shape (p : Property) (ps : Nat) :
    (Property.normalize p ps = none ↔ ∃ v, p = Property.Kernelpagesize v) ∧
    (∀ q, Property.normalize p ps = some q → Property.tag q = Property.tag p) ∧
    (isPassThrough p = true → Property.normalize p ps = some p) := by
  cases p <;> simp [Property.normalize, Property.tag, isPassThrough]

/-- C9 (witness): the variant-shape statement applied at concrete inputs. -/
theorem claim9_witness :
    Property.tag (Property.Anon 6) = Property.tag (Property.Anon 2) ∧
      Property.normalize (Property.MapMax 5) 7 = some (Property.MapMax 5) :=
  ⟨(claim9_normalize_variant_shape (Property.Anon 2) 3).2.1
      (Property.Anon 6) (by decide),
   (claim9_normalize_variant_shape (Property.MapMax 5) 7).2.2 (by decide)⟩

/-- C10: `Range::normalize` never changes the address or policy field,
whether or not a page-size property is present. -/
theorem claim10_address_policy_frame (r : Range) :
    (Range.normalize r).address = r.address ∧
      (Range.normalize r).policy = r.policy := by
  cases hf : r.properties.findSome? Property.page_size with
  | none => rw [normalize_of_none hf]; exact ⟨rfl, rfl⟩
  | some ps => rw [normalize_of_some hf]; exact ⟨rfl, rfl⟩
